import Mathlib

/-!
Shallow embedding of the asset normalization and scope-admission engine of
`bbrf.py` (class `BBRFClient`), together with proofs settling the claims
about it.  Python strings are modelled as Lean `String`s, with all string
primitives (lower, split, startswith, endswith, list `remove`, …) defined
on the underlying `List Char` so that they mirror Python semantics exactly.
Stateful loops are modelled by explicit state passing; code that can raise
an exception returns `Except String`.
-/

namespace BBRF

/-! ## Python string primitives -/

/-- Python `str.lower()` restricted to ASCII: maps `A`-`Z` (65-90) to
`a`-`z` (97-122) and leaves every other character unchanged.  (The tokens
handled by the client are hostnames, IPs and URLs, i.e. ASCII.) -/
def pyLowerChar (c : Char) : Char :=
  if 65 ≤ c.toNat && c.toNat ≤ 90 then Char.ofNat (c.toNat + 32) else c

def pyLower (s : String) : String := ⟨s.data.map pyLowerChar⟩

/-- Python `s[n:]`. -/
def strDrop (s : String) (n : Nat) : String := ⟨s.data.drop n⟩

/-- Python `s[:-1]`. -/
def strDropLast (s : String) : String := ⟨s.data.dropLast⟩

/-- Python `s.startswith(pre)`. -/
def pyStartsWith (s pre : String) : Bool := pre.data.isPrefixOf s.data

/-- Python `s.endswith(suf)`. -/
def pyEndsWith (s suf : String) : Bool := suf.data.isSuffixOf s.data

/-- Python `list.remove(x)`: removes the first occurrence of `x`
(no-op on a list not containing `x`; the `ValueError` Python would raise
in that case never occurs at the call sites modelled here, which guard
with a membership test or pass an element known to be present). -/
def pyListRemove (x : String) : List String → List String
  | [] => []
  | y :: ys => if y == x then ys else y :: pyListRemove x ys

/-- Python `str.split(sep)` for a single-character separator: splits at
every occurrence, keeping empty fragments (`"a::b".split(':') ==
['a','','b']`, `"".split(':') == ['']`). -/
def chSplit (sep : Char) : List Char → List (List Char)
  | [] => [[]]
  | c :: rest =>
    if c = sep then [] :: chSplit sep rest
    else
      match chSplit sep rest with
      | [] => [[c]]
      | g :: gs => (c :: g) :: gs

def pySplit (s : String) (sep : Char) : List String :=
  (chSplit sep s.data).map (fun l => ⟨l⟩)

/-! ## The two anchored regular expressions (bbrf.py lines 46-48)

`REGEX_DOMAIN = ^(?:[a-z0-9](?:[a-z0-9-]{0,61}[a-z0-9])?\.)+[a-z0-9][a-z0-9-]{0,61}[a-z0-9]$`
`REGEX_IP     = ^([0-9]{1,3}\.){3}[0-9]{1,3}(\/([0-9]|[1-2][0-9]|3[0-2]))?$`

Since the label alternatives of `REGEX_DOMAIN` cannot contain `.`, a string
matches iff splitting it at every `.` yields at least two fragments, all
non-final fragments matching the label expression and the final fragment
matching the final-label expression; similarly `/` occurs in `REGEX_IP`
only as the CIDR delimiter and `.` only between the four digit groups, so
both regexes are faithfully decomposed by `pySplit`. -/

/-- Character class `[a-z0-9]`. -/
def isLowerDigit (c : Char) : Bool :=
  decide ((97 ≤ c.toNat ∧ c.toNat ≤ 122) ∨ (48 ≤ c.toNat ∧ c.toNat ≤ 57))

/-- Character class `[a-z0-9-]`. -/
def isLdh (c : Char) : Bool := isLowerDigit c || c = '-'

/-- Label expression `[a-z0-9](?:[a-z0-9-]{0,61}[a-z0-9])?` : length 1, or length 2-63 with
alphanumeric first and last character and LDH characters in between. -/
def labelCore (l : List Char) : Bool :=
  match l with
  | [] => false
  | [c] => isLowerDigit c
  | c :: rest =>
    isLowerDigit c && decide (rest.length ≤ 62) && rest.dropLast.all isLdh &&
      (match rest.getLast? with | some d => isLowerDigit d | none => false)

/-- Final label expression `[a-z0-9][a-z0-9-]{0,61}[a-z0-9]` : length 2-63, alphanumeric first and
last character, LDH characters in between. -/
def finalLabelCore (l : List Char) : Bool :=
  match l with
  | [] => false
  | [_] => false
  | c :: rest =>
    isLowerDigit c && decide (rest.length ≤ 62) && rest.dropLast.all isLdh &&
      (match rest.getLast? with | some d => isLowerDigit d | none => false)

def regexDomainCore (s : String) : Bool :=
  let parts := pySplit s '.'
  decide (2 ≤ parts.length) && (parts.dropLast.all fun p => labelCore p.data) &&
    finalLabelCore (parts.getLastD "").data

/-- Digit group `[0-9]{1,3}`. -/
def ipGroup (l : List Char) : Bool :=
  decide (l ≠ []) && decide (l.length ≤ 3) && l.all Char.isDigit

def ipQuad (s : String) : Bool :=
  let parts := pySplit s '.'
  decide (parts.length = 4) && (parts.all fun p => ipGroup p.data)

/-- CIDR bit count `[0-9]|[1-2][0-9]|3[0-2]`. -/
def cidrBits (l : List Char) : Bool :=
  match l with
  | [c] => c.isDigit
  | [c1, c2] =>
    ((c1 == '1' || c1 == '2') && c2.isDigit) ||
      (c1 == '3' && (c2 == '0' || c2 == '1' || c2 == '2'))
  | _ => false

def regexIpCore (s : String) : Bool :=
  match pySplit s '/' with
  | [ip] => ipQuad ip
  | [ip, c] => ipQuad ip && cidrBits c.data
  | _ => false

/-- Python `re.match` with a `^...$`-anchored pattern: `$` also matches
just before a single newline at the very end of the string. -/
def pyFullMatch (core : String → Bool) (s : String) : Bool :=
  core s || (pyEndsWith s "\n" && core (strDropLast s))

/-- Test `REGEX_DOMAIN.match(s)` (bbrf.py line 46). -/
def regexDomainMatch (s : String) : Bool := pyFullMatch regexDomainCore s

/-- Test `REGEX_IP.match(s)` (bbrf.py line 48). -/
def regexIpMatch (s : String) : Bool := pyFullMatch regexIpCore s

/-! ## ScopeMatcher -/

/-- Method `BBRFClient.matches_scope` (bbrf.py lines 106-114): literal equality,
or a wildcard pattern `*.suffix` matching candidates that end in
`.suffix`.  The source's early-`return` loop is the boolean `any`. -/
def matches_scope (domain : String) (scope : List String) : Bool :=
  scope.any fun s =>
    s == domain || (pyStartsWith s "*." && pyEndsWith domain ("." ++ strDrop s 2))

/-! ## The filter-by-removal loops

`add_domains` (bbrf.py lines 202-206) and `add_ips` (lines 305-307) both run

    for x in xs:
        if x in blacklist: flag = True     # only in add_domains
        if not REGEX.match(x): xs.remove(x)

i.e. they mutate the list while iterating over it by index.  `removeScanAux`
is the direct translation of CPython's list-iterator semantics: an index
`i` is incremented on every iteration, the current element is `xs[i]`, and
`remove` deletes the first occurrence of the value.  The loop performs at
most `xs.length` iterations (the index grows by one per iteration and the
length never grows), so running it with that much fuel is exact; the
fuel-0 case is unreachable (see `removeScanAux_eq_scanStruct`). -/
def removeScanAux (p : String → Bool) (bl : List String) :
    Nat → List String → Nat → Bool → Bool × List String
  | 0, ips, _, flag => (flag, ips)
  | fuel + 1, ips, i, flag =>
    if h : i < ips.length then
      let ip := ips.get ⟨i, h⟩
      let flag2 := flag || bl.contains ip
      let ips2 := if p ip then ips else pyListRemove ip ips
      removeScanAux p bl fuel ips2 (i + 1) flag2
    else (flag, ips)

/-- The complete loop: flag (`blacklisted_ip` in `add_domains`) and the
final contents of the mutated list. -/
def removeScan (p : String → Bool) (bl : List String) (l : List String) :
    Bool × List String :=
  removeScanAux p bl l.length l 0 false

/-- Structural reformulation of the same loop, used to state what it
actually does: the current list is `kept ++ rest` with the index sitting
at `kept.length`.  An element that fails `p` is removed (its first
occurrence by value), which shifts the list left under the incremented
index, so the element immediately after a removal is skipped: it is
neither tested against the blacklist nor against `p`.
`removeScanAux_eq_scanStruct` proves this equal to the index loop. -/
def scanStruct (p : String → Bool) (bl : List String) :
    List String → List String → Bool → Bool × List String
  | kept, [], flag => (flag, kept)
  | kept, ip :: rest, flag =>
    let flag2 := flag || bl.contains ip
    if p ip then scanStruct p bl (kept ++ [ip]) rest flag2
    else
      let keptR := if kept.contains ip then pyListRemove ip kept ++ [ip] else kept
      match rest with
      | [] => (flag2, keptR)
      | skipped :: rest2 => scanStruct p bl (keptR ++ [skipped]) rest2 flag2

/-! ## Python dict with insertion order -/

/-- Assignment `d[k] = v` on a Python dict: overwrites in place, appends new keys. -/
def dictInsert {α : Type} (k : String) (v : α) :
    List (String × α) → List (String × α)
  | [] => [(k, v)]
  | (k2, v2) :: rest =>
    if k2 == k then (k, v) :: rest else (k2, v2) :: dictInsert k v rest

/-! ## The store-call trace

The pipelines end by calling the store collaborator (`BBRFApi`); the claims
about batching and duplicate-retry behaviour are about which calls are
issued and with which keys, so each pipeline also gets a `..._calls`
function producing its trace. -/

inductive StoreCall where
  | updateProgramScope (inscope outscope : List String)
  | updateProgramBlacklist (blacklist : List String)
  | addDocs (kind : String) (keys : List String)
  | updateDocs (kind : String) (keys : List String)
deriving DecidableEq

/-! ## ScopeEditor (bbrf.py lines 507-541, 571-587) -/

/-- Body of `add_inscope` / `add_outscope` / `add_blacklist`: append each
element not already present, then write the list once. -/
def add_inscope_fun (inscope elements : List String) : List String :=
  elements.foldl (fun ins e => if ins.contains e then ins else ins ++ [e]) inscope

/-- Body of `remove_inscope` / `remove_outscope`: `list.remove` each element
that is present, skip the others, then write the list once. -/
def remove_inscope_fun (inscope elements : List String) : List String :=
  elements.foldl (fun ins e => if ins.contains e then pyListRemove e ins else ins) inscope

/-- Method `remove_blacklist` (bbrf.py lines 580-587).  The source reads
`blacklist.delete(e)` for a present element `e` — Python lists have no
attribute `delete` (the sibling `remove_inscope` uses `list.remove`), so
the statement raises `AttributeError` as soon as an element of `elements`
is found in the blacklist; absent elements are skipped harmlessly.  The
result is the blacklist finally written by `update_program_blacklist`. -/
def remove_blacklist_fun (blacklist elements : List String) :
    Except String (List String) :=
  elements.foldlM
    (fun bl e =>
      if bl.contains e then
        Except.error "AttributeError: list object has no attribute delete"
      else Except.ok bl)
    blacklist

/-! ## DomainNormalizer + AssetIngestPipeline for domains
(`BBRFClient.add_domains`, bbrf.py lines 184-245) -/

/-- Outcome of one iteration of the `add_domains` loop: the wildcard
scope-expansion entry appended to `add_inscope` (line 221), if any, and
the `(domain, ips)` entry stored into `add_domains` (line 236), if the
token is admitted. -/
structure DomainStep where
  scopeAdd : Option String
  admitted : Option (String × List String)
deriving DecidableEq

/-- The wildcard-prefix step of the `add_domains` loop (bbrf.py lines
216-221): on a `*.` prefix, strip it and, when the bare form is
grammar-valid, not outscoped and inscoped, record `*.` ++ bare form for
the bulk scope expansion.  Returns the (possibly stripped) domain and
the optional scope-expansion entry. -/
def domainWildcardCheck (inscope outscope : List String) (d1 : String) :
    String × Option String :=
  if pyStartsWith d1 "*." then
    (strDrop d1 2,
      if regexDomainMatch (strDrop d1 2) &&
          !matches_scope (strDrop d1 2) outscope &&
          matches_scope (strDrop d1 2) inscope
      then some ("*." ++ strDrop d1 2) else none)
  else (d1, none)

/-- The `continue`-chain of the `add_domains` loop (bbrf.py lines
223-236): skip when blacklisted-by-association or literally blacklisted,
when the domain grammar fails, when outscoped, or when not inscoped;
otherwise store `(domain, ips)`. -/
def domainAdmitCheck (inscope outscope blacklist : List String)
    (blacklistedIp : Bool) (d2 : String) (ips : List String) :
    Option (String × List String) :=
  if blacklistedIp || blacklist.contains d2 then none
  else if !regexDomainMatch d2 then none
  else if matches_scope d2 outscope then none
  else if !matches_scope d2 inscope then none
  else some (d2, ips)

/-- One iteration of the `for domain in domains` loop of `add_domains`
(bbrf.py lines 192-236): lowercase; on a `:` delimiter unpack into domain
and comma-separated IPs (raising `ValueError` when the split does not have
exactly two parts) and run the blacklist-check/grammar-removal pass; strip
one trailing dot; apply the wildcard step; finally the admission chain. -/
def processDomainToken (inscope outscope blacklist : List String)
    (raw : String) : Except String DomainStep :=
  let low := pyLower raw
  let colonStep : Except String (String × List String × Bool) :=
    if low.data.contains ':' then
      match pySplit low ':' with
      | [d, ipstr] =>
        let scan := removeScan regexIpMatch blacklist (pySplit ipstr ',')
        Except.ok (d, scan.2, scan.1)
      | _ => Except.error "ValueError: too many values to unpack"
    else Except.ok (low, [], false)
  colonStep.map fun x =>
    let d1 := if pyEndsWith x.1 "." then strDropLast x.1 else x.1
    let w := domainWildcardCheck inscope outscope d1
    ⟨w.2, domainAdmitCheck inscope outscope blacklist x.2.2 w.1 x.2.1⟩

/-- The `add_domains` dict update for one loop iteration. -/
def stepDict (d : List (String × List String)) (st : DomainStep) :
    List (String × List String) :=
  match st.admitted with
  | some (k, v) => dictInsert k v d
  | none => d

/-- The `add_inscope` list extension for one loop iteration. -/
def scopeList (st : DomainStep) : List String :=
  match st.scopeAdd with
  | some s => [s]
  | none => []

def stepAcc (acc : List (String × List String) × List String)
    (st : DomainStep) : List (String × List String) × List String :=
  (stepDict acc.1 st, acc.2 ++ scopeList st)

/-- The whole `for domain in domains` loop, threading the `add_domains`
dict and the `add_inscope` list; an exception aborts the batch before
anything is persisted. -/
def add_domains_loop (inscope outscope blacklist : List String)
    (acc : List (String × List String) × List String) :
    List String → Except String (List (String × List String) × List String)
  | [] => Except.ok acc
  | raw :: rest =>
    match processDomainToken inscope outscope blacklist raw with
    | Except.error e => Except.error e
    | Except.ok st => add_domains_loop inscope outscope blacklist (stepAcc acc st) rest

def add_domains_core (inscope outscope blacklist : List String)
    (domains : List String) :
    Except String (List (String × List String) × List String) :=
  add_domains_loop inscope outscope blacklist ([], []) domains

/-- Result of `add_domains` end to end: the records dict, the collected
scope expansions, and the in-scope list as left after the single
`self.add_inscope(add_inscope)` bulk call (bbrf.py lines 239-240), which
is only made when the collected list is non-empty. -/
def add_domains_full (inscope outscope blacklist : List String)
    (domains : List String) :
    Except String
      (List (String × List String) × List String × List String) :=
  (add_domains_core inscope outscope blacklist domains).map fun (dict, adds) =>
    (dict, adds, if 0 < adds.length then add_inscope_fun inscope adds else inscope)

/-- The store calls issued by `add_domains` after the loop, given the set
of keys the store reports as failed from the bulk add.  Line 242 reads
`success, _ = self.api.add_documents(...)`: the failed set is discarded
(the parameter records the store's response to make that visible) and no
`update_documents` retry is issued. -/
def add_domains_calls (inscope outscope blacklist : List String)
    (domains : List String) (failedResp : List String) :
    Except String (List StoreCall) :=
  (add_domains_core inscope outscope blacklist domains).map fun (dict, adds) =>
    let _ := failedResp
    (if 0 < adds.length then
      [StoreCall.updateProgramScope (add_inscope_fun inscope adds) outscope]
     else []) ++ [StoreCall.addDocs "domain" (dict.map Prod.fst)]

/-! ## IpNormalizer + pipeline (`BBRFClient.add_ips`, bbrf.py lines 290-323) -/

/-- One iteration of the `for ip in ips` loop of `add_ips`: unpack an
optional `:`-delimited comma-separated domain list (`ValueError` unless
the split has exactly two parts), run the grammar-removal pass over the
embedded domains (the blacklist check on them is commented out in the
source, so `blacklisted_domain` stays `False` and the scan runs with an
empty blacklist), then admit unless the IP is blacklisted or fails
`REGEX_IP`. -/
def processIpToken (blacklist : List String) (raw : String) :
    Except String (Option (String × List String)) :=
  let colonStep : Except String (String × List String) :=
    if raw.data.contains ':' then
      match pySplit raw ':' with
      | [ip, dstr] =>
        let scan := removeScan regexDomainMatch [] (pySplit dstr ',')
        Except.ok (ip, scan.2)
      | _ => Except.error "ValueError: too many values to unpack"
    else Except.ok (raw, [])
  colonStep.map fun (ip, doms) =>
    if blacklist.contains ip then none
    else if !regexIpMatch ip then none
    else some (ip, doms)

def add_ips_loop (blacklist : List String)
    (acc : List (String × List String)) :
    List String → Except String (List (String × List String))
  | [] => Except.ok acc
  | raw :: rest =>
    match processIpToken blacklist raw with
    | Except.error e => Except.error e
    | Except.ok none => add_ips_loop blacklist acc rest
    | Except.ok (some (k, v)) => add_ips_loop blacklist (dictInsert k v acc) rest

def add_ips_core (blacklist : List String) (ips : List String) :
    Except String (List (String × List String)) :=
  add_ips_loop blacklist [] ips

/-- Store calls issued by `add_ips`: line 320 also reads
`success, _ = self.api.add_documents(...)` — no update retry of the
failed set. -/
def add_ips_calls (blacklist : List String) (ips : List String)
    (failedResp : List String) : Except String (List StoreCall) :=
  (add_ips_core blacklist ips).map fun dict =>
    let _ := failedResp
    [StoreCall.addDocs "ip" (dict.map Prod.fst)]

/-! ## UrlNormalizer + pipeline (`BBRFClient.add_urls`, bbrf.py lines 386-482) -/

/-- Everything after the first occurrence of `sep` (empty if absent). -/
def afterFirst (sep : Char) (l : List Char) : List Char :=
  (l.dropWhile fun c => c ≠ sep).drop 1

/-- Python `netloc.rpartition(sep)[2]`: everything after the last occurrence of
`sep`, the whole string when absent. -/
def afterLast (sep : Char) (l : List Char) : List Char :=
  ((l.reverse.takeWhile fun c => c ≠ sep)).reverse

/-- Python `int(s)`: optional surrounding ASCII whitespace, optional
sign, then at least one decimal digit (the `_` digit-grouping accepted by
CPython is not used by any input considered here and is not modelled).
`none` models the `ValueError` raised otherwise. -/
def pyIsSpace (c : Char) : Bool := c = ' ' || c = '\t' || c = '\n' || c = '\r'

def digitsToNat (l : List Char) : Nat :=
  l.foldl (fun n c => 10 * n + (c.toNat - 48)) 0

def pyInt (s : String) : Option Int :=
  let t := ((s.data.dropWhile pyIsSpace).reverse.dropWhile pyIsSpace).reverse
  let signDigits : Int × List Char :=
    match t with
    | '-' :: rest => (-1, rest)
    | '+' :: rest => (1, rest)
    | _ => (1, t)
  if signDigits.2 ≠ [] && signDigits.2.all Char.isDigit then
    some (signDigits.1 * (digitsToNat signDigits.2 : Int))
  else none

/-- Result of `urllib.parse.urlparse` restricted to the shapes that occur
in `add_urls`: by line 397-398 every parsed string starts with `http://`,
`https://`, `//` or a path (no scheme).  The fragment (after the first
`#`) is cut off, the netloc extends after a leading `//` up to the next
`/` or `?`, the query is everything after the first `?` of the remainder,
the hostname is the lowercased host part of the netloc (after the last
`@`, before the first `:`), and the port is the digits after that `:`
when present and in range (explicit ports that would make CPython's
`.port` property raise are outside the modelled input class). -/
structure PyUrl where
  scheme : String
  netloc : String
  query : String
  hostname : Option String
  port : Option Nat
deriving DecidableEq

def parseNetloc (u : PyUrl) : PyUrl :=
  let hostinfo := afterLast '@' u.netloc.data
  let host := hostinfo.takeWhile fun c => c ≠ ':'
  let portStr := afterFirst ':' hostinfo
  { u with
    hostname := if host = [] then none else some (pyLower ⟨host⟩)
    port :=
      if portStr ≠ [] && portStr.all Char.isDigit &&
          decide (digitsToNat portStr ≤ 65535)
      then some (digitsToNat portStr) else none }

def pyUrlparse (url : String) : PyUrl :=
  let noFrag : List Char := url.data.takeWhile fun c => c ≠ '#'
  let (scheme, rest) : String × List Char :=
    if pyStartsWith ⟨noFrag⟩ "http://" then ("http", noFrag.drop 5)
    else if pyStartsWith ⟨noFrag⟩ "https://" then ("https", noFrag.drop 6)
    else ("", noFrag)
  let (netloc, tail) : String × List Char :=
    if pyStartsWith ⟨rest⟩ "//" then
      let r2 := rest.drop 2
      (⟨r2.takeWhile fun c => c ≠ '/' && c ≠ '?'⟩,
       r2.dropWhile fun c => c ≠ '/' && c ≠ '?')
    else ("", rest)
  parseNetloc
    { scheme := scheme, netloc := netloc, query := ⟨afterFirst '?' tail⟩,
      hostname := none, port := none }

/-- One URL record as stored by `add_urls` (bbrf.py lines 459-474).
The query list collects `Option String` values because the merge branch
(line 456-457) can append the `None` query of a later sighting. -/
structure UrlRec where
  hostname : String
  port : Nat
  status : Option Int
  content_length : Option Int
  query : List (Option String)
deriving DecidableEq

/-- The merge-or-create step at the end of the `add_urls` loop (bbrf.py
lines 456-474): if the URL key already exists with a query list not yet
containing this sighting's query value, append that value; otherwise a
fresh record is created when there is exactly 1 space-separated field
(and the key is new), a record with status and content length parsed by
`int()` is stored when there are exactly 3 fields (`ValueError` on
non-numeric fields), and nothing is stored for any other field count. -/
def urlMergeCreate (parts : List String) (hostname : String) (port : Nat)
    (query : Option String) (url4 : String)
    (dict : List (String × UrlRec)) : Except String (List (String × UrlRec)) :=
  let mergeCond :=
    match dict.lookup url4 with
    | some rec => !rec.query.contains query
    | none => false
  if mergeCond then
    match dict.lookup url4 with
    | some rec =>
      Except.ok (dictInsert url4 { rec with query := rec.query ++ [query] } dict)
    | none => Except.ok dict
  else if parts.length = 1 then
    if (dict.lookup url4).isNone then
      Except.ok (dictInsert url4
        { hostname := hostname, port := port, status := none,
          content_length := none,
          query := match query with | some q => [some q] | none => [] } dict)
    else Except.ok dict
  else if parts.length = 3 then
    match pyInt ((parts.get? 1).getD ""), pyInt ((parts.get? 2).getD "") with
    | some st, some cl =>
      Except.ok (dictInsert url4
        { hostname := hostname, port := port, status := some st,
          content_length := some cl,
          query := match query with | some q => [some q] | none => [] } dict)
    | _, _ => Except.error "ValueError: invalid literal for int() with base 10"
  else Except.ok dict

/-- Outcome of the per-token URL resolution (bbrf.py lines 392-454):
either the token is skipped (missing hostname, override mismatch,
illegal hostname, outscoped, not inscoped), or it reaches the storage
step carrying the resolved hostname, port, query and query-stripped URL
key. -/
inductive UrlPhase where
  | skip
  | store (hostname : String) (port : Nat) (query : Option String) (url4 : String)
deriving DecidableEq

/-- Steps 2-10 of one `add_urls` loop iteration (bbrf.py lines 392-454):
default the scheme, parse, resolve the hostname (explicit `-d` override
wins), skip on missing or mismatching hostname, rewrite relative and
protocol-relative URLs to absolute `http` with port 80, cut the query
off the stored URL, check the hostname grammar, check outscope then
inscope, and infer the port (explicit wins, else 80 for http and 443
for https; `int(None)` would raise if no port could be inferred). -/
def urlResolve (override : Option String) (inscope outscope : List String)
    (parts : List String) : Except String UrlPhase :=
  let url0 := parts.headD ""
  let url1 :=
    if !pyStartsWith url0 "http://" && !pyStartsWith url0 "https://" &&
        !pyStartsWith url0 "/"
    then "http://" ++ url0 else url0
  let u := pyUrlparse url1
  let query : Option String := if u.query = "" then none else some u.query
  let hostnameOpt : Option String :=
    match override with
    | none => u.hostname
    | some d => some d
  match hostnameOpt with
  | none => Except.ok UrlPhase.skip
  | some hostname =>
    if hostname = "" then Except.ok UrlPhase.skip
    else if u.hostname.isSome && u.hostname ≠ some hostname then
      Except.ok UrlPhase.skip
    else
      let (url2, port2) : String × Option Nat :=
        if u.netloc = "" then ("http://" ++ hostname ++ url1, some 80)
        else (url1, u.port)
      let (url3, port3) : String × Option Nat :=
        if pyStartsWith url2 "//" then ("http:" ++ url2, some 80)
        else (url2, port2)
      let url4 := if url3.data.contains '?' then (pySplit url3 '?').headD "" else url3
      if !regexDomainMatch hostname && !regexIpMatch hostname then
        Except.ok UrlPhase.skip
      else if matches_scope hostname outscope then Except.ok UrlPhase.skip
      else if !matches_scope hostname inscope then Except.ok UrlPhase.skip
      else
        let port4 : Option Nat :=
          match port3 with
          | some p => some p
          | none =>
            if u.scheme = "http" then some 80
            else if u.scheme = "https" then some 443
            else none
        match port4 with
        | none => Except.error "TypeError: int() argument must not be None"
        | some port => Except.ok (UrlPhase.store hostname port query url4)

/-- One iteration of the `for url in urls` loop of `add_urls` (bbrf.py
lines 391-474), threading the `add_urls` dict: split on spaces (field 0
is the URL), resolve, then — unless skipped — merge or create via
`urlMergeCreate`. -/
def processUrlToken (override : Option String) (inscope outscope : List String)
    (dict : List (String × UrlRec)) (raw : String) :
    Except String (List (String × UrlRec)) :=
  let parts := pySplit raw ' '
  match urlResolve override inscope outscope parts with
  | Except.error e => Except.error e
  | Except.ok UrlPhase.skip => Except.ok dict
  | Except.ok (UrlPhase.store hostname port query url4) =>
    urlMergeCreate parts hostname port query url4 dict

def add_urls_loop (override : Option String) (inscope outscope : List String)
    (dict : List (String × UrlRec)) :
    List String → Except String (List (String × UrlRec))
  | [] => Except.ok dict
  | raw :: rest =>
    match processUrlToken override inscope outscope dict raw with
    | Except.error e => Except.error e
    | Except.ok dict2 => add_urls_loop override inscope outscope dict2 rest

def add_urls_core (override : Option String) (inscope outscope : List String)
    (urls : List String) : Except String (List (String × UrlRec)) :=
  add_urls_loop override inscope outscope [] urls

/-- Store calls issued by `add_urls` (bbrf.py lines 476-479): the bulk
add, then — unlike the domain and IP pipelines — a bulk
`update_documents` retry of exactly the keys the store reported as
failed (`{url: add_urls[url] for url in failed}`; a failed key absent
from the dict would raise `KeyError`). -/
def add_urls_calls (override : Option String) (inscope outscope : List String)
    (urls : List String) (failedResp : List String) :
    Except String (List StoreCall) :=
  match add_urls_core override inscope outscope urls with
  | Except.error e => Except.error e
  | Except.ok dict =>
    if failedResp.all fun f => (dict.lookup f).isSome then
      Except.ok [StoreCall.addDocs "url" (dict.map Prod.fst),
                 StoreCall.updateDocs "url" failedResp]
    else Except.error "KeyError"

/-! ## Claim-side views of the domain normalization

These restate, in the claims' own vocabulary, what the per-token pipeline
computes: the normalized domain (lowercased, embedded-IP part cut off,
trailing dot stripped, wildcard prefix stripped), the embedded IP
candidates, and the result of the grammar-removal pass over them.  The
refinement theorems below prove `processDomainToken` equal to this
view. -/

/-- Token after lowercasing, cutting at the first `:`, and stripping one
trailing dot (the form the wildcard test of bbrf.py line 216 sees). -/
def normBase (raw : String) : String :=
  let d := (pySplit (pyLower raw) ':').headD ""
  if pyEndsWith d "." then strDropLast d else d

/-- Whether the token carried a `*.` wildcard prefix at that point. -/
def hadWildcard (raw : String) : Bool := pyStartsWith (normBase raw) "*."

/-- The fully normalized domain the admission checks run on. -/
def normDomain (raw : String) : String :=
  if hadWildcard raw then strDrop (normBase raw) 2 else normBase raw

/-- The comma-separated embedded IP candidates of a `domain:ip,ip` token
(empty when the token has no `:` or does not split in exactly two). -/
def embeddedIps (raw : String) : List String :=
  match pySplit (pyLower raw) ':' with
  | [_, ipstr] => pySplit ipstr ','
  | _ => []

/-- The blacklist flag and surviving IP list produced by the in-place
removal pass over the embedded IPs. -/
def ipScanOf (blacklist : List String) (raw : String) : Bool × List String :=
  scanStruct regexIpMatch blacklist [] (embeddedIps raw) false

/-- Claim-side statement of the wildcard scope-expansion rule: a token
that carried `*.` contributes `*.` ++ its normalized domain when that
domain is grammar-valid, not outscoped and inscoped. -/
def scopeAddView (inscope outscope : List String) (raw : String) :
    Option String :=
  if hadWildcard raw && regexDomainMatch (normDomain raw) &&
      !matches_scope (normDomain raw) outscope &&
      matches_scope (normDomain raw) inscope
  then some ("*." ++ normDomain raw) else none

/-- Claim-side statement of the admission rule: the normalized domain is
admitted, carrying the survivors of the removal pass, iff it is
grammar-valid, neither flagged by the pass nor literally blacklisted,
not outscoped, and inscoped. -/
def admitView (inscope outscope blacklist : List String) (raw : String) :
    Option (String × List String) :=
  if regexDomainMatch (normDomain raw) &&
      !((ipScanOf blacklist raw).1 || blacklist.contains (normDomain raw)) &&
      !matches_scope (normDomain raw) outscope &&
      matches_scope (normDomain raw) inscope
  then some (normDomain raw, (ipScanOf blacklist raw).2) else none

/-- Independent per-element processing: plain error-propagating map.
(`add_domains_loop_eq_mapM` proves the batch loop equal to mapping the
per-token function independently and folding the steps afterwards.) -/
def mapExcept (f : String → Except String DomainStep) :
    List String → Except String (List DomainStep)
  | [] => Except.ok []
  | x :: xs =>
    match f x with
    | Except.error e => Except.error e
    | Except.ok v => (mapExcept f xs).map (fun vs => v :: vs)

/-- Spec-side notion of a genuine IPv4 dotted quad: exactly four decimal
groups, each with numeric value at most 255.  (Used only to state that
`REGEX_IP` is more liberal than real IPv4.) -/
def isValidIPv4 (s : String) : Bool :=
  let parts := pySplit s '.'
  decide (parts.length = 4) &&
    parts.all fun p =>
      decide (p.data ≠ []) && p.data.all Char.isDigit &&
        decide (digitsToNat p.data ≤ 255)

/-! ## Helper lemmas -/

theorem pyListRemove_append_left {x : String} {l1 : List String}
    (l2 : List String) (h : x ∈ l1) :
    pyListRemove x (l1 ++ l2) = pyListRemove x l1 ++ l2 := by
  induction l1 with
  | nil => simp at h
  | cons y ys ih =>
    by_cases hy : y = x
    · simp [pyListRemove, hy]
    · have hmem : x ∈ ys := by
        rcases List.mem_cons.mp h with h1 | h1
        · exact absurd h1.symm hy
        · exact h1
      simp [pyListRemove, hy, ih hmem]

theorem pyListRemove_append_not {x : String} {l1 : List String}
    (l2 : List String) (h : x ∉ l1) :
    pyListRemove x (l1 ++ l2) = l1 ++ pyListRemove x l2 := by
  induction l1 with
  | nil => simp
  | cons y ys ih =>
    have hy : ¬ (y = x) := fun he => h (by simp [he])
    have hys : x ∉ ys := fun he => h (List.mem_cons_of_mem y he)
    simp [pyListRemove, hy, ih hys]

theorem pyListRemove_cons_self (x : String) (l : List String) :
    pyListRemove x (x :: l) = l := by
  simp [pyListRemove]

theorem pyListRemove_length_of_mem {x : String} {l : List String}
    (h : x ∈ l) :
    (pyListRemove x l).length + 1 = l.length := by
  induction l with
  | nil => simp at h
  | cons y ys ih =>
    by_cases hy : y = x
    · simp [pyListRemove, hy]
    · have hmem : x ∈ ys := by
        rcases List.mem_cons.mp h with h1 | h1
        · exact absurd h1.symm hy
        · exact h1
      simp [pyListRemove, hy, ih hmem]

theorem pyListRemove_sublist (x : String) (l : List String) :
    List.Sublist (pyListRemove x l) l := by
  induction l with
  | nil => simp [pyListRemove]
  | cons y ys ih =>
    by_cases hy : y == x
    · simpa [pyListRemove, hy] using List.sublist_cons_self y ys
    · simpa [pyListRemove, hy] using List.Sublist.cons₂ y ih

theorem getAppendLen {α : Type} (l1 : List α) (x : α) (l2 : List α)
    (h : l1.length < (l1 ++ x :: l2).length) :
    (l1 ++ x :: l2).get ⟨l1.length, h⟩ = x := by
  induction l1 with
  | nil => rfl
  | cons y ys ih => exact ih (by simpa using Nat.lt_of_succ_lt_succ (by simpa using h))

/-- Once the index has reached the length, the loop exits immediately
whatever fuel is left. -/
theorem removeScanAux_done (p : String → Bool) (bl : List String)
    (fuel : Nat) (l : List String) (i : Nat) (flag : Bool)
    (h : l.length ≤ i) : removeScanAux p bl fuel l i flag = (flag, l) := by
  cases fuel with
  | zero => rfl
  | succ fuel => simp [removeScanAux, Nat.not_lt.mpr h]

/-- The index-based loop, started at index `kept.length` on the list
`kept ++ rest` with fuel at least `rest.length`, computes exactly the
structural scan. -/
theorem removeScanAux_eq_scanStruct (p : String → Bool) (bl : List String) :
    ∀ (fuel : Nat) (kept rest : List String) (flag : Bool),
      rest.length ≤ fuel →
      removeScanAux p bl fuel (kept ++ rest) kept.length flag =
        scanStruct p bl kept rest flag := by
  intro fuel
  induction fuel with
  | zero =>
    intro kept rest flag h
    have : rest = [] := List.length_eq_zero.mp (Nat.le_zero.mp h)
    subst this
    simp [removeScanAux, scanStruct]
  | succ fuel ih =>
    intro kept rest flag h
    cases rest with
    | nil =>
      rw [scanStruct]
      have := removeScanAux_done p bl (fuel + 1) (kept ++ []) kept.length flag (by simp)
      simpa using this
    | cons ip rest1 =>
      have hlt : kept.length < (kept ++ ip :: rest1).length := by
        simp [List.length_append]
      simp only [removeScanAux]
      rw [dif_pos hlt, getAppendLen kept ip rest1 hlt]
      by_cases hp : p ip
      · rw [if_pos hp]
        have he : (kept ++ ip :: rest1 : List String) = (kept ++ [ip]) ++ rest1 := by simp
        rw [he]
        have hlen : kept.length + 1 = (kept ++ [ip]).length := by simp
        rw [hlen,
          ih (kept ++ [ip]) rest1 (flag || bl.contains ip) (by simpa using Nat.le_of_succ_le_succ h)]
        simp [scanStruct, hp]
      · rw [if_neg hp]
        by_cases hk : kept.contains ip
        · have hk2 : ip ∈ kept := by simpa using hk
          have hlr := pyListRemove_length_of_mem hk2
          have hrm : pyListRemove ip (kept ++ ip :: rest1) = (pyListRemove ip kept ++ [ip]) ++ rest1 := by
            rw [pyListRemove_append_left (ip :: rest1) hk2]
            simp
          rw [hrm]
          cases rest1 with
          | nil =>
            rw [removeScanAux_done p bl fuel _ (kept.length + 1) _ (by simp; omega)]
            simp [scanStruct, hp, hk2]
          | cons skipped rest2 =>
            have hsplit : (pyListRemove ip kept ++ [ip]) ++ skipped :: rest2 =
                ((pyListRemove ip kept ++ [ip]) ++ [skipped]) ++ rest2 := by simp
            rw [hsplit]
            have hlen2 : kept.length + 1 = ((pyListRemove ip kept ++ [ip]) ++ [skipped]).length := by
              simp
              omega
            rw [hlen2,
              ih ((pyListRemove ip kept ++ [ip]) ++ [skipped]) rest2 (flag || bl.contains ip)
                (by simp at h ⊢; omega)]
            simp [scanStruct, hp, hk2]
        · have hk2 : ip ∉ kept := by simpa using hk
          have hrm : pyListRemove ip (kept ++ ip :: rest1) = kept ++ rest1 := by
            rw [pyListRemove_append_not (ip :: rest1) hk2, pyListRemove_cons_self]
          rw [hrm]
          cases rest1 with
          | nil =>
            rw [removeScanAux_done p bl fuel _ (kept.length + 1) _ (by simp)]
            simp [scanStruct, hp, hk2]
          | cons skipped rest2 =>
            have hsplit : (kept ++ skipped :: rest2 : List String) = (kept ++ [skipped]) ++ rest2 := by
              simp
            rw [hsplit]
            have hlen2 : kept.length + 1 = (kept ++ [skipped]).length := by simp
            rw [hlen2,
              ih (kept ++ [skipped]) rest2 (flag || bl.contains ip) (by simp at h ⊢; omega)]
            simp [scanStruct, hp, hk2]

/-- The complete mutate-while-iterating loop equals the structural scan. -/
theorem removeScan_eq (p : String → Bool) (bl : List String) (l : List String) :
    removeScan p bl l = scanStruct p bl [] l false := by
  have := removeScanAux_eq_scanStruct p bl l.length [] l false (Nat.le_refl _)
  simpa [removeScan] using this

theorem scanStruct_sublist_aux (p : String → Bool) (bl : List String) :
    ∀ (n : Nat) (rest kept : List String) (flag : Bool), rest.length ≤ n →
      List.Sublist (scanStruct p bl kept rest flag).2 (kept ++ rest) := by
  intro n
  induction n with
  | zero =>
    intro rest kept flag h
    have : rest = [] := List.length_eq_zero.mp (Nat.le_zero.mp h)
    subst this
    simp [scanStruct]
  | succ n ih =>
    intro rest kept flag h
    cases rest with
    | nil => simp [scanStruct]
    | cons ip rest1 =>
      by_cases hp : p ip
      · simp only [scanStruct, hp, if_true]
        have := ih rest1 (kept ++ [ip]) (flag || bl.contains ip)
          (by simpa using Nat.le_of_succ_le_succ h)
        simpa using this
      · by_cases hk : kept.contains ip
        · have hkr : List.Sublist (pyListRemove ip kept ++ [ip]) (kept ++ [ip]) :=
            (pyListRemove_sublist ip kept).append (List.Sublist.refl [ip])
          cases rest1 with
          | nil =>
            simp only [scanStruct, hp, hk, if_false, if_true, Bool.false_eq_true]
            simpa using hkr
          | cons skipped rest2 =>
            simp only [scanStruct, hp, hk, if_false, if_true, Bool.false_eq_true]
            have h1 := ih rest2 ((pyListRemove ip kept ++ [ip]) ++ [skipped])
              (flag || bl.contains ip) (by simp at h ⊢; omega)
            refine h1.trans ?_
            have h2 : List.Sublist (((pyListRemove ip kept ++ [ip]) ++ [skipped]) ++ rest2)
                (((kept ++ [ip]) ++ [skipped]) ++ rest2) :=
              (hkr.append (List.Sublist.refl [skipped])).append (List.Sublist.refl rest2)
            refine h2.trans ?_
            simp
        · cases rest1 with
          | nil =>
            simp only [scanStruct, hp, hk, if_false, Bool.false_eq_true]
            simpa using List.sublist_append_left kept [ip]
          | cons skipped rest2 =>
            simp only [scanStruct, hp, hk, if_false, Bool.false_eq_true]
            have h1 := ih rest2 (kept ++ [skipped]) (flag || bl.contains ip)
              (by simp at h ⊢; omega)
            refine h1.trans ?_
            have h2 : List.Sublist (kept ++ skipped :: rest2) (kept ++ ip :: skipped :: rest2) :=
              List.Sublist.append_left (List.sublist_cons_self ip (skipped :: rest2)) kept
            refine List.Sublist.trans ?_ h2
            simp

/-- The survivors of the removal pass are a subsequence of the candidate
list: the loop deletes elements but never reorders or invents them. -/
theorem scanStruct_sublist (p : String → Bool) (bl : List String)
    (l : List String) :
    List.Sublist (scanStruct p bl [] l false).2 l := by
  simpa using scanStruct_sublist_aux p bl l.length l [] false (Nat.le_refl _)

theorem strMk_data (s : String) : (⟨s.data⟩ : String) = s := rfl

theorem chSplit_of_not_mem {sep : Char} {l : List Char} (h : sep ∉ l) :
    chSplit sep l = [l] := by
  induction l with
  | nil => rfl
  | cons c rest ih =>
    have hc : ¬ (c = sep) := fun he => h (by simp [he])
    have hrest : sep ∉ rest := fun he => h (List.mem_cons_of_mem c he)
    simp [chSplit, hc, ih hrest]

theorem pySplit_of_not_contains {s : String} {sep : Char}
    (h : s.data.contains sep = false) : pySplit s sep = [s] := by
  have : sep ∉ s.data := by simpa using h
  simp [pySplit, chSplit_of_not_mem this, strMk_data]

theorem chSplit_length (sep : Char) (l : List Char) :
    (chSplit sep l).length = l.count sep + 1 := by
  induction l with
  | nil => rfl
  | cons c rest ih =>
    by_cases hc : c = sep
    · simp [chSplit, hc, List.count_cons, ih]
    · have hne : chSplit sep rest ≠ [] := by
        cases hr : chSplit sep rest with
        | nil => rw [hr] at ih; simp at ih
        | cons g gs => simp
      cases hr : chSplit sep rest with
      | nil => exact absurd hr hne
      | cons g gs =>
        rw [hr] at ih
        simp only [chSplit, if_neg hc, hr]
        simp at ih ⊢
        simp [List.count_cons, hc]
        omega

theorem pyLowerChar_colon {c : Char} : pyLowerChar c = ':' ↔ c = ':' := by
  constructor
  · intro h
    by_cases hc : 65 ≤ c.toNat && c.toNat ≤ 90
    · exfalso
      simp only [pyLowerChar, hc, if_true] at h
      have hb : 65 ≤ c.toNat ∧ c.toNat ≤ 90 := by simpa using hc
      have hv : (c.toNat + 32).isValidChar := Or.inl (by omega)
      have h2 := congrArg Char.toNat h
      have h3 : (Char.ofNat (c.toNat + 32)).toNat = c.toNat + 32 := by
        unfold Char.ofNat
        rw [dif_pos hv]
        rfl
      rw [h3] at h2
      have hcolon : (':' : Char).toNat = 58 := rfl
      omega
    · simpa [pyLowerChar, hc] using h
  · intro h
    subst h
    rfl

theorem pyLower_count_colon (s : String) :
    (pyLower s).data.count ':' = s.data.count ':' := by
  show (s.data.map pyLowerChar).count ':' = s.data.count ':'
  induction s.data with
  | nil => rfl
  | cons c rest ih =>
    by_cases hc : c = ':'
    · simp [List.count_cons, ih, hc, pyLowerChar_colon.mpr rfl]
    · have hne : ¬ (pyLowerChar c = ':') := fun he => hc (pyLowerChar_colon.mp he)
      simp [List.count_cons, ih, hc, hne]

/-- Boolean normal form of the admission check chain of bbrf.py
lines 223-236. -/
theorem admit_chain (fA fB c d e : Bool) (v : String × List String) :
    (if fA || fB then none
     else if !c then none
     else if d then none
     else if !e then none
     else some v) =
      (if c && !(fA || fB) && !d && e then some v else none) := by
  cases fA <;> cases fB <;> cases c <;> cases d <;> cases e <;> rfl

theorem domainAdmitCheck_eq (inscope outscope blacklist : List String)
    (f : Bool) (d : String) (ips : List String) :
    domainAdmitCheck inscope outscope blacklist f d ips =
      (if regexDomainMatch d && !(f || blacklist.contains d) &&
          !matches_scope d outscope && matches_scope d inscope
       then some (d, ips) else none) :=
  admit_chain f (blacklist.contains d) (regexDomainMatch d)
    (matches_scope d outscope) (matches_scope d inscope) (d, ips)

theorem domainWildcardCheck_fst (inscope outscope : List String) (d1 : String) :
    (domainWildcardCheck inscope outscope d1).1 =
      (if pyStartsWith d1 "*." then strDrop d1 2 else d1) := by
  rw [domainWildcardCheck]
  by_cases hw : pyStartsWith d1 "*." <;> simp [hw]

/-- The claim-side wildcard view is exactly the scope-expansion component
of the per-token wildcard step, run on the claim-side `normBase`. -/
theorem scopeAddView_eq (inscope outscope : List String) (raw : String) :
    scopeAddView inscope outscope raw =
      (domainWildcardCheck inscope outscope (normBase raw)).2 := by
  rw [scopeAddView, domainWildcardCheck, hadWildcard, normDomain, hadWildcard]
  by_cases hw : pyStartsWith (normBase raw) "*." <;> simp [hw]

/-- The claim-side admission view is exactly the admission chain run on
the claim-side normalized domain and IP-scan result. -/
theorem admitView_eq (inscope outscope blacklist : List String) (raw : String) :
    admitView inscope outscope blacklist raw =
      domainAdmitCheck inscope outscope blacklist (ipScanOf blacklist raw).1
        (domainWildcardCheck inscope outscope (normBase raw)).1
        (ipScanOf blacklist raw).2 := by
  rw [domainAdmitCheck_eq, domainWildcardCheck_fst, admitView, normDomain, hadWildcard]

/-- Refinement: a successful `processDomainToken` computes exactly the
claim-side wildcard-expansion and admission views. -/
theorem processDomainToken_ok_eq (inscope outscope blacklist : List String)
    (raw : String) (st : DomainStep)
    (h : processDomainToken inscope outscope blacklist raw = Except.ok st) :
    st.scopeAdd = scopeAddView inscope outscope raw ∧
      st.admitted = admitView inscope outscope blacklist raw := by
  by_cases hc : (pyLower raw).data.contains ':'
  · have hcm : ':' ∈ (pyLower raw).data := by simpa using hc
    cases hs : pySplit (pyLower raw) ':' with
    | nil => simp [processDomainToken, hcm, hs, Except.map] at h
    | cons d tl =>
      cases tl with
      | nil => simp [processDomainToken, hcm, hs, Except.map] at h
      | cons ipstr tl2 =>
        cases tl2 with
        | cons z zs => simp [processDomainToken, hcm, hs, Except.map] at h
        | nil =>
          have hval : processDomainToken inscope outscope blacklist raw
              = Except.ok
                  ⟨(domainWildcardCheck inscope outscope
                      (if pyEndsWith d "." then strDropLast d else d)).2,
                    domainAdmitCheck inscope outscope blacklist
                      (removeScan regexIpMatch blacklist (pySplit ipstr ',')).1
                      (domainWildcardCheck inscope outscope
                        (if pyEndsWith d "." then strDropLast d else d)).1
                      (removeScan regexIpMatch blacklist (pySplit ipstr ',')).2⟩ := by
            simp [processDomainToken, hcm, hs, Except.map]
          rw [hval] at h
          injection h with h2
          subst h2
          have hnb : normBase raw = (if pyEndsWith d "." then strDropLast d else d) := by
            simp [normBase, hs]
          have hscan : ipScanOf blacklist raw
              = removeScan regexIpMatch blacklist (pySplit ipstr ',') := by
            simp [ipScanOf, embeddedIps, hs, removeScan_eq]
          constructor
          · rw [scopeAddView_eq, hnb]
          · rw [admitView_eq, hnb, hscan]
  · have hcm : ':' ∉ (pyLower raw).data := by simpa using hc
    have hsp : pySplit (pyLower raw) ':' = [pyLower raw] :=
      pySplit_of_not_contains (by simpa using hc)
    have hval : processDomainToken inscope outscope blacklist raw
        = Except.ok
            ⟨(domainWildcardCheck inscope outscope
                (if pyEndsWith (pyLower raw) "." then strDropLast (pyLower raw)
                 else pyLower raw)).2,
              domainAdmitCheck inscope outscope blacklist false
                (domainWildcardCheck inscope outscope
                  (if pyEndsWith (pyLower raw) "." then strDropLast (pyLower raw)
                   else pyLower raw)).1 []⟩ := by
      simp [processDomainToken, hcm, Except.map]
    rw [hval] at h
    injection h with h2
    subst h2
    have hnb : normBase raw
        = (if pyEndsWith (pyLower raw) "." then strDropLast (pyLower raw)
           else pyLower raw) := by
      simp [normBase, hsp]
    have hscan : ipScanOf blacklist raw = (false, []) := by
      simp [ipScanOf, embeddedIps, hsp]
      rfl
    constructor
    · rw [scopeAddView_eq, hnb]
    · rw [admitView_eq, hnb, hscan]

theorem stepAcc_of_none (acc : List (String × List String) × List String) :
    stepAcc acc ⟨none, none⟩ = acc := by
  cases acc
  simp [stepAcc, stepDict, scopeList]

/-- Batch decomposition: the loop is equivalent to first computing every
token's step independently — from the token and the initial snapshots
alone — and then folding the resulting steps over the accumulator. -/
theorem add_domains_loop_eq_mapM (inscope outscope blacklist : List String) :
    ∀ (toks : List String) (acc : List (String × List String) × List String),
      add_domains_loop inscope outscope blacklist acc toks =
        (mapExcept (processDomainToken inscope outscope blacklist) toks).map
          (fun sts =>
            (sts.foldl stepDict acc.1, acc.2 ++ sts.filterMap DomainStep.scopeAdd)) := by
  intro toks
  induction toks with
  | nil =>
    intro acc
    simp [add_domains_loop, mapExcept, Except.map]
  | cons raw rest ih =>
    intro acc
    cases hp : processDomainToken inscope outscope blacklist raw with
    | error e => simp [add_domains_loop, mapExcept, hp, Except.map]
    | ok st =>
      simp only [add_domains_loop, hp]
      rw [ih (stepAcc acc st)]
      cases hrest : mapExcept (processDomainToken inscope outscope blacklist) rest with
      | error e => simp [mapExcept, hp, hrest, Except.map]
      | ok sts =>
        simp [mapExcept, hp, hrest, Except.map, stepAcc, scopeList]
        cases hsa : st.scopeAdd <;> simp [hsa, scopeList]

/-! ### ScopeMatcher characterization -/

theorem pyStartsWith_wild (s : String) :
    pyStartsWith s "*." = true ↔ ∃ suf : String, s = "*." ++ suf := by
  rw [pyStartsWith, List.isPrefixOf_iff_prefix]
  constructor
  · rintro ⟨t, ht⟩
    refine ⟨⟨t⟩, ?_⟩
    have : ("*." ++ (⟨t⟩ : String)).data = s.data := by
      rw [String.data_append]
      exact ht
    cases s
    cases this
    rfl
  · rintro ⟨suf, rfl⟩
    exact ⟨suf.data, (String.data_append _ _).symm⟩

theorem strDrop_wild (suf : String) : strDrop ("*." ++ suf) 2 = suf := by
  rw [strDrop]
  have h1 : ("*." ++ suf).data = "*.".data ++ suf.data := String.data_append _ _
  rw [h1]
  have h3 : (("*.".data : List Char)).length = 2 := rfl
  rw [← h3, List.drop_left, strMk_data]

theorem pyEndsWith_iff (s suf : String) :
    pyEndsWith s suf = true ↔ suf.data <:+ s.data := by
  rw [pyEndsWith, List.isSuffixOf_iff_suffix]

/-- Full characterization of `matches_scope`: some pattern is literally
the candidate, or some pattern is `*.` ++ a suffix and `.` ++ that suffix
is a suffix of the candidate. -/
theorem matches_scope_iff (domain : String) (scope : List String) :
    matches_scope domain scope = true ↔
      ∃ s ∈ scope, s = domain ∨
        ∃ suf : String, s = "*." ++ suf ∧ ("." ++ suf).data <:+ domain.data := by
  rw [matches_scope, List.any_eq_true]
  constructor
  · rintro ⟨s, hmem, hp⟩
    refine ⟨s, hmem, ?_⟩
    have hp2 : s = domain ∨
        (pyStartsWith s "*." = true ∧
          pyEndsWith domain ("." ++ strDrop s 2) = true) := by
      simpa using hp
    rcases hp2 with hlit | ⟨hw, he⟩
    · exact Or.inl hlit
    · obtain ⟨suf, rfl⟩ := (pyStartsWith_wild s).mp hw
      rw [strDrop_wild] at he
      exact Or.inr ⟨suf, rfl, (pyEndsWith_iff _ _).mp he⟩
  · rintro ⟨s, hmem, hcase⟩
    refine ⟨s, hmem, ?_⟩
    rcases hcase with rfl | ⟨suf, rfl, hsuf⟩
    · simp
    · have hw := (pyStartsWith_wild ("*." ++ suf)).mpr ⟨suf, rfl⟩
      have he : pyEndsWith domain ("." ++ strDrop ("*." ++ suf) 2) = true := by
        rw [strDrop_wild]
        exact (pyEndsWith_iff _ _).mpr hsuf
      simp [hw, he]

/-- The apex `suf` itself never matches its own wildcard pattern
`*.suf`: the literal test fails on length, and the suffix test would
need `.suf` to be a suffix of `suf`. -/
theorem matches_scope_apex (suf : String) :
    matches_scope suf ["*." ++ suf] = false := by
  cases hx : matches_scope suf ["*." ++ suf] with
  | false => rfl
  | true =>
    exfalso
    rcases (matches_scope_iff _ _).mp hx with ⟨s, hmem, hcase⟩
    have hs : s = "*." ++ suf := by simpa using hmem
    subst hs
    rcases hcase with heq | ⟨suf2, heq2, hsuf⟩
    · have hlen := congrArg (fun x : String => x.data.length) heq
      simp [String.data_append] at hlen
      omega
    · have hsame : suf2 = suf := by
        have h2 := congrArg String.data heq2
        rw [String.data_append, String.data_append] at h2
        have h3 := List.append_cancel_left h2
        cases suf2
        cases suf
        cases h3
        rfl
      subst hsame
      have hlen := hsuf.length_le
      simp [String.data_append] at hlen

/-- Pattern order and multiplicity are irrelevant: two pattern lists with
the same members give the same answer for every candidate. -/
theorem matches_scope_perm (domain : String) (s1 s2 : List String)
    (h : ∀ x, x ∈ s1 ↔ x ∈ s2) :
    matches_scope domain s1 = matches_scope domain s2 := by
  cases h2 : matches_scope domain s2 with
  | true =>
    rcases (matches_scope_iff _ _).mp h2 with ⟨s, hmem, hc⟩
    exact (matches_scope_iff _ _).mpr ⟨s, (h s).mpr hmem, hc⟩
  | false =>
    cases h1 : matches_scope domain s1 with
    | false => rfl
    | true =>
      exfalso
      rcases (matches_scope_iff _ _).mp h1 with ⟨s, hmem, hc⟩
      have := (matches_scope_iff _ _).mpr ⟨s, (h s).mp hmem, hc⟩
      rw [h2] at this
      cases this

/-! ### Helpers for the wildcard scope-expansion claim -/

theorem strExt {s t : String} (h : s.data = t.data) : s = t := by
  cases s
  cases t
  cases h
  rfl

theorem pyLower_append (a b : String) :
    pyLower (a ++ b) = pyLower a ++ pyLower b := by
  apply strExt
  show ((a ++ b).data).map pyLowerChar = (pyLower a ++ pyLower b).data
  rw [String.data_append, String.data_append, List.map_append]
  rfl

theorem singleton_suffix_iff (c : Char) (l : List Char) :
    [c] <:+ l ↔ l.getLast? = some c := by
  constructor
  · rintro ⟨t, rfl⟩
    simp
  · intro h
    have hne : l ≠ [] := by
      intro he
      rw [he] at h
      cases h
    refine ⟨l.dropLast, ?_⟩
    have hd := List.dropLast_append_getLast hne
    have h2 : l.getLast? = some (l.getLast hne) := List.getLast?_eq_getLast l hne
    rw [h2] at h
    injection h with h3
    rw [← h3]
    exact hd

theorem pyEndsWith_dot_append (a b : String) (hb : b.data ≠ []) :
    pyEndsWith (a ++ b) "." = pyEndsWith b "." := by
  have hiff1 : pyEndsWith (a ++ b) "." = true ↔ (a ++ b).data.getLast? = some '.' := by
    rw [pyEndsWith_iff]
    exact singleton_suffix_iff '.' _
  have hiff2 : pyEndsWith b "." = true ↔ b.data.getLast? = some '.' := by
    rw [pyEndsWith_iff]
    exact singleton_suffix_iff '.' _
  have happ : (a ++ b).data.getLast? = b.data.getLast? := by
    rw [String.data_append]
    exact List.getLast?_append_of_ne_nil a.data hb
  cases hx : pyEndsWith (a ++ b) "." with
  | true =>
    have := hiff1.mp hx
    rw [happ] at this
    exact (hiff2.mpr this).symm
  | false =>
    cases hy : pyEndsWith b "." with
    | false => rfl
    | true =>
      exfalso
      have := hiff2.mp hy
      rw [← happ] at this
      have h2 := hiff1.mpr this
      rw [hx] at h2
      cases h2

theorem regexDomainMatch_empty : regexDomainMatch "" = false := by decide

/-! ### Key preservation of the URL merge step -/

theorem dictInsert_keys_of_isSome {α : Type} (k : String) (v : α)
    (d : List (String × α)) (h : (d.lookup k).isSome) :
    (dictInsert k v d).map Prod.fst = d.map Prod.fst := by
  induction d with
  | nil => simp [List.lookup] at h
  | cons p rest ih =>
    obtain ⟨k2, v2⟩ := p
    by_cases hk : k2 = k
    · subst hk
      simp [dictInsert]
    · have hk2 : ¬ (k = k2) := fun he => hk he.symm
      have hbeq : (k == k2) = false := by simp [hk2]
      have h2 : (rest.lookup k).isSome := by
        simp only [List.lookup, hbeq] at h
        exact h
      simp [dictInsert, hk, ih h2]

theorem urlMergeCreate_keys (parts : List String) (hostname : String)
    (port : Nat) (query : Option String) (url4 : String)
    (dict dict2 : List (String × UrlRec))
    (h1 : parts.length ≠ 1) (h3 : parts.length ≠ 3)
    (hok : urlMergeCreate parts hostname port query url4 dict = Except.ok dict2) :
    dict2.map Prod.fst = dict.map Prod.fst := by
  unfold urlMergeCreate at hok
  cases hl : dict.lookup url4 with
  | none =>
    simp only [hl, if_neg h1, if_neg h3] at hok
    injection hok with h4
    rw [← h4]
  | some rec =>
    by_cases hq : rec.query.contains query
    · simp only [hl, hq, Bool.not_true, if_neg h1, if_neg h3] at hok
      simp at hok
      rw [← hok]
    · simp only [hl, hq, Bool.not_false] at hok
      simp at hok
      rw [← hok]
      exact dictInsert_keys_of_isSome url4 _ dict (by simp [hl])
/-! ## The claims -/

/-- C1, counterexample.  The claim requires that an admitted token have no
surviving blacklisted embedded IP.  For the token
`a.example.com:xx,1.2.3.4` with blacklist `["1.2.3.4"]` the removal pass
deletes `xx` and then skips `1.2.3.4` (the element after a removal is
never examined), so the blacklisted IP `1.2.3.4` survives into the
persisted record and the domain is admitted anyway. -/
theorem C1_counterexample :
    add_domains_full ["*.example.com"] [] ["1.2.3.4"]
        ["a.example.com:xx,1.2.3.4"] =
      Except.ok ([("a.example.com", ["1.2.3.4"])], [], ["*.example.com"]) ∧
      "1.2.3.4" ∈ (["1.2.3.4"] : List String) ∧
      regexIpMatch "xx" = false :=
  ⟨by rfl, by decide, by decide⟩

/-- C1, amended: a token that processes without error is admitted iff the
normalized (lowercased, colon-stripped, trailing-dot-stripped,
wildcard-stripped) domain is grammar-valid, the in-place removal pass
over its embedded IPs saw no blacklisted IP, the domain is not literally
blacklisted, matches no outscope pattern, and matches some inscope
pattern; the record carries exactly the survivors of that pass. -/
theorem C1_amended (inscope outscope blacklist : List String) (raw : String)
    (st : DomainStep)
    (h : processDomainToken inscope outscope blacklist raw = Except.ok st) :
    st.admitted = admitView inscope outscope blacklist raw :=
  (processDomainToken_ok_eq inscope outscope blacklist raw st h).2

theorem C1_amended_witness :
    processDomainToken ["*.example.com"] [] [] "a.example.com" =
        Except.ok ⟨none, some ("a.example.com", [])⟩ ∧
      (⟨none, some ("a.example.com", [])⟩ : DomainStep).admitted =
        admitView ["*.example.com"] [] [] "a.example.com" :=
  ⟨by rfl, C1_amended ["*.example.com"] [] [] "a.example.com" _ (by rfl)⟩

/-- C2: `matches_scope` returns true iff some pattern equals the
candidate literally or some pattern `*.suffix` is such that the candidate
ends with `.suffix`; the apex `suffix` never matches its own wildcard
pattern; and pattern order (indeed anything but membership) is
irrelevant. -/
theorem C2 :
    (∀ (domain : String) (scope : List String),
        matches_scope domain scope = true ↔
          ∃ s ∈ scope, s = domain ∨
            ∃ suf : String, s = "*." ++ suf ∧ ("." ++ suf).data <:+ domain.data) ∧
      (∀ suf : String, matches_scope suf ["*." ++ suf] = false) ∧
      (∀ (domain : String) (s1 s2 : List String),
        (∀ x, x ∈ s1 ↔ x ∈ s2) →
          matches_scope domain s1 = matches_scope domain s2) :=
  ⟨matches_scope_iff, matches_scope_apex, matches_scope_perm⟩

theorem C2_witness :
    matches_scope "x.example.com" ["*.example.com"] = true ∧
      matches_scope "example.com" ["*.example.com"] = false ∧
      matches_scope "example.com" ["example.com"] = true ∧
      matches_scope "example.com" ["cc", "example.com"] =
        matches_scope "example.com" ["example.com", "cc"] := by
  refine ⟨?_, ?_, ?_, ?_⟩
  · exact (C2.1 "x.example.com" ["*.example.com"]).mpr
      ⟨"*.example.com", by simp,
        Or.inr ⟨"example.com", by decide, by decide⟩⟩
  · have h := C2.2.1 "example.com"
    have he : ("*." ++ "example.com" : String) = "*.example.com" := by decide
    rw [he] at h
    exact h
  · exact (C2.1 "example.com" ["example.com"]).mpr
      ⟨"example.com", by simp, Or.inl rfl⟩
  · exact C2.2.2 "example.com" ["cc", "example.com"] ["example.com", "cc"]
      (fun x => by simp [or_comm])

/-- C3: a `*.`-prefixed token whose bare form is (already normalized and)
grammar-valid, not outscoped and inscoped emits the scope expansion
`*.bare`; the batch applies all collected expansions in one
`add_inscope` bulk call at the end; and the concrete example
`*.foo.example.com` against inscope `["*.example.com"]` lands
`*.foo.example.com` in the new inscope list. -/
theorem C3 :
    (∀ (inscope outscope blacklist : List String) (bare : String),
        pyLower bare = bare → bare.data.contains ':' = false →
        pyEndsWith bare "." = false → regexDomainMatch bare = true →
        matches_scope bare outscope = false → matches_scope bare inscope = true →
        ∃ st, processDomainToken inscope outscope blacklist ("*." ++ bare) =
            Except.ok st ∧ st.scopeAdd = some ("*." ++ bare)) ∧
      (∀ (inscope outscope blacklist : List String) (toks : List String)
          (dict : List (String × List String)) (adds : List String),
        add_domains_core inscope outscope blacklist toks = Except.ok (dict, adds) →
        add_domains_full inscope outscope blacklist toks =
            Except.ok (dict, adds,
              if 0 < adds.length then add_inscope_fun inscope adds else inscope) ∧
          ∃ sts, mapExcept (processDomainToken inscope outscope blacklist) toks =
              Except.ok sts ∧ adds = sts.filterMap DomainStep.scopeAdd) ∧
      add_domains_full ["*.example.com"] [] [] ["*.foo.example.com"] =
        Except.ok ([("foo.example.com", [])], ["*.foo.example.com"],
          ["*.example.com", "*.foo.example.com"]) := by
  refine ⟨?_, ?_, by rfl⟩
  · intro inscope outscope blacklist bare hlow hcol hdot hgram hout hin
    have hne : bare.data ≠ [] := by
      intro he
      have : bare = "" := strExt he
      rw [this, regexDomainMatch_empty] at hgram
      cases hgram
    have hlow2 : pyLower ("*." ++ bare) = "*." ++ bare := by
      rw [pyLower_append, hlow]
      have : pyLower "*." = "*." := by decide
      rw [this]
    have hnc2 : ':' ∉ ("*." ++ bare).data := by
      rw [String.data_append]
      intro hmem
      rcases List.mem_append.mp hmem with hx | hx
      · exact (by decide : ':' ∉ ("*." : String).data) hx
      · exact (by simpa using hcol : ':' ∉ bare.data) hx
    have hncm : ':' ∉ (pyLower ("*." ++ bare)).data := by
      rw [hlow2]
      exact hnc2
    have hdot2 : pyEndsWith ("*." ++ bare) "." = false := by
      rw [pyEndsWith_dot_append "*." bare hne]
      exact hdot
    have hval : processDomainToken inscope outscope blacklist ("*." ++ bare)
        = Except.ok
            ⟨(domainWildcardCheck inscope outscope
                (if pyEndsWith (pyLower ("*." ++ bare)) "." = true
                 then strDropLast (pyLower ("*." ++ bare))
                 else pyLower ("*." ++ bare))).2,
              domainAdmitCheck inscope outscope blacklist false
                (domainWildcardCheck inscope outscope
                  (if pyEndsWith (pyLower ("*." ++ bare)) "." = true
                   then strDropLast (pyLower ("*." ++ bare))
                   else pyLower ("*." ++ bare))).1 []⟩ := by
      simp [processDomainToken, hncm, Except.map]
    refine ⟨_, hval, ?_⟩
    show (domainWildcardCheck inscope outscope
        (if pyEndsWith (pyLower ("*." ++ bare)) "." = true
         then strDropLast (pyLower ("*." ++ bare))
         else pyLower ("*." ++ bare))).2
      = some ("*." ++ bare)
    rw [hlow2, hdot2]
    simp only [Bool.false_eq_true, if_false]
    have hw : pyStartsWith ("*." ++ bare) "*." = true :=
      (pyStartsWith_wild _).mpr ⟨bare, rfl⟩
    rw [domainWildcardCheck, if_pos hw, strDrop_wild]
    simp [hgram, hout, hin]
  · intro inscope outscope blacklist toks dict adds hcore
    constructor
    · rw [add_domains_full, hcore]
      rfl
    · have hmap := add_domains_loop_eq_mapM inscope outscope blacklist toks ([], [])
      rw [add_domains_core] at hcore
      rw [hcore] at hmap
      cases hm : mapExcept (processDomainToken inscope outscope blacklist) toks with
      | error e =>
        rw [hm] at hmap
        cases hmap
      | ok sts =>
        rw [hm] at hmap
        refine ⟨sts, rfl, ?_⟩
        injection hmap with h2
        have := congrArg Prod.snd h2
        simpa using this

theorem C3_witness :
    ∃ st, processDomainToken ["*.example.com"] [] []
        ("*." ++ "foo.example.com") = Except.ok st ∧
      st.scopeAdd = some ("*." ++ "foo.example.com") :=
  C3.1 ["*.example.com"] [] [] "foo.example.com" (by decide) (by decide)
    (by decide) (by decide) (by decide) (by decide)

/-- C4, counterexample.  The claim says every grammar-invalid embedded IP
is discarded.  In `a.example.com:xx,yy` both `xx` and `yy` fail the IP
grammar, but removing `xx` shifts the list under the incremented index,
so `yy` is skipped and survives into the persisted record. -/
theorem C4_counterexample :
    add_domains_full ["*.example.com"] [] [] ["a.example.com:xx,yy"] =
        Except.ok ([("a.example.com", ["yy"])], [], ["*.example.com"]) ∧
      regexIpMatch "yy" = false :=
  ⟨by rfl, by decide⟩

/-- C4, amended: the embedded IP list of an admitted token is the
survivor set of the in-place removal pass (which skips the element after
each removal, so invalid IPs can survive), that survivor set is a
subsequence of the candidate list, and the blacklist-by-association flag
computed by the same pass was false. -/
theorem C4_amended (inscope outscope blacklist : List String) (raw : String)
    (st : DomainStep) (d : String) (ips : List String)
    (h : processDomainToken inscope outscope blacklist raw = Except.ok st)
    (ha : st.admitted = some (d, ips)) :
    ips = (ipScanOf blacklist raw).2 ∧
      List.Sublist ips (embeddedIps raw) ∧
      (ipScanOf blacklist raw).1 = false := by
  have h2 := (processDomainToken_ok_eq inscope outscope blacklist raw st h).2
  rw [ha, admitView] at h2
  by_cases hC : (regexDomainMatch (normDomain raw) &&
      !((ipScanOf blacklist raw).1 || blacklist.contains (normDomain raw)) &&
      !matches_scope (normDomain raw) outscope &&
      matches_scope (normDomain raw) inscope) = true
  · rw [if_pos hC] at h2
    injection h2 with h3
    have hips : ips = (ipScanOf blacklist raw).2 := congrArg Prod.snd h3
    have hflag : (ipScanOf blacklist raw).1 = false := by
      cases hb : (ipScanOf blacklist raw).1 with
      | false => rfl
      | true =>
        exfalso
        rw [hb] at hC
        simp at hC
    refine ⟨hips, ?_, hflag⟩
    rw [hips, ipScanOf]
    exact scanStruct_sublist _ _ _
  · rw [if_neg hC] at h2
    cases h2

theorem C4_amended_witness :
    processDomainToken ["*.example.com"] [] [] "a.example.com:1.2.3.4" =
        Except.ok ⟨none, some ("a.example.com", ["1.2.3.4"])⟩ ∧
      ((["1.2.3.4"] : List String) = (ipScanOf [] "a.example.com:1.2.3.4").2 ∧
        List.Sublist ["1.2.3.4"] (embeddedIps "a.example.com:1.2.3.4") ∧
        (ipScanOf [] "a.example.com:1.2.3.4").1 = false) :=
  ⟨by rfl,
    C4_amended ["*.example.com"] [] [] "a.example.com:1.2.3.4"
      ⟨none, some ("a.example.com", ["1.2.3.4"])⟩ "a.example.com" ["1.2.3.4"]
      (by rfl) (by rfl)⟩

/-- C5: `remove_blacklist` calls `blacklist.delete(e)` — Python lists
have no attribute `delete` (`remove_inscope` uses `list.remove`), so a
present element raises `AttributeError` instead of being removed, while
the sibling scope removal works; absent elements are skipped without
error. -/
theorem C5_bug :
    remove_blacklist_fun ["1.2.3.4"] ["1.2.3.4"] =
        Except.error "AttributeError: list object has no attribute delete" ∧
      remove_inscope_fun ["1.2.3.4"] ["1.2.3.4"] = [] ∧
      remove_blacklist_fun ["1.2.3.4"] ["5.6.7.8"] = Except.ok ["1.2.3.4"] :=
  ⟨by rfl, by rfl, by rfl⟩

/-- C6, counterexample.  A domain token with two `:` delimiters makes the
tuple unpacking raise `ValueError` and aborts the whole batch, and a URL
token with three space-separated fields whose third field is not numeric
makes `int()` raise `ValueError`; neither is silently dropped. -/
theorem C6_counterexample :
    add_domains_core ["*.example.com"] [] [] ["a.example.com:1.2.3.4:8080"] =
        Except.error "ValueError: too many values to unpack" ∧
      add_urls_core none ["example.com"] [] ["http://example.com/page 200 OK"] =
        Except.error "ValueError: invalid literal for int() with base 10" :=
  ⟨by rfl, by rfl⟩

/-- C6, amended: a domain token with at most one `:` always processes
without an exception, and when its normalized domain fails the grammar
the token is a no-op for the batch: it contributes no record and no
scope expansion, and the loop result on any batch containing it equals
the result without it. -/
theorem C6_amended (inscope outscope blacklist : List String) (raw : String)
    (hcol : raw.data.count ':' ≤ 1) :
    ∃ st, processDomainToken inscope outscope blacklist raw = Except.ok st ∧
      (regexDomainMatch (normDomain raw) = false →
        st = ⟨none, none⟩ ∧
          ∀ acc toks,
            add_domains_loop inscope outscope blacklist acc (raw :: toks) =
              add_domains_loop inscope outscope blacklist acc toks) := by
  have hok : ∃ st, processDomainToken inscope outscope blacklist raw =
      Except.ok st := by
    by_cases hc : (pyLower raw).data.contains ':'
    · have hcm : ':' ∈ (pyLower raw).data := by simpa using hc
      have hcount : (pyLower raw).data.count ':' = 1 := by
        have hpos : 0 < (pyLower raw).data.count ':' :=
          List.count_pos_iff.mpr hcm
        have hle : (pyLower raw).data.count ':' ≤ 1 := by
          rw [pyLower_count_colon]
          exact hcol
        omega
      have hlen : (pySplit (pyLower raw) ':').length = 2 := by
        rw [pySplit, List.length_map, chSplit_length, hcount]
      cases hsp : pySplit (pyLower raw) ':' with
      | nil => rw [hsp] at hlen; cases hlen
      | cons a tl =>
        cases tl with
        | nil => rw [hsp] at hlen; simp at hlen
        | cons b tl2 =>
          cases tl2 with
          | nil =>
            exact ⟨⟨(domainWildcardCheck inscope outscope
                  (if pyEndsWith a "." = true then strDropLast a else a)).2,
                domainAdmitCheck inscope outscope blacklist
                  (removeScan regexIpMatch blacklist (pySplit b ',')).1
                  (domainWildcardCheck inscope outscope
                    (if pyEndsWith a "." = true then strDropLast a else a)).1
                  (removeScan regexIpMatch blacklist (pySplit b ',')).2⟩,
              by simp [processDomainToken, hcm, hsp, Except.map]⟩
          | cons cc tl3 => rw [hsp] at hlen; simp at hlen
    · have hcm : ':' ∉ (pyLower raw).data := by simpa using hc
      exact ⟨⟨(domainWildcardCheck inscope outscope
            (if pyEndsWith (pyLower raw) "." = true then strDropLast (pyLower raw)
             else pyLower raw)).2,
          domainAdmitCheck inscope outscope blacklist false
            (domainWildcardCheck inscope outscope
              (if pyEndsWith (pyLower raw) "." = true then strDropLast (pyLower raw)
               else pyLower raw)).1 []⟩,
        by simp [processDomainToken, hcm, Except.map]⟩
  obtain ⟨st, hst⟩ := hok
  refine ⟨st, hst, ?_⟩
  intro hreg
  have hview := processDomainToken_ok_eq inscope outscope blacklist raw st hst
  have hnone : st = ⟨none, none⟩ := by
    cases st with
    | mk sA aA =>
      have hsA : sA = scopeAddView inscope outscope raw := hview.1
      have haA : aA = admitView inscope outscope blacklist raw := hview.2
      have h1 : sA = none := by
        rw [hsA, scopeAddView, hreg]
        simp
      have h2 : aA = none := by
        rw [haA, admitView, hreg]
        simp
      rw [h1, h2]
  subst hnone
  refine ⟨rfl, ?_⟩
  intro acc toks
  simp only [add_domains_loop, hst, stepAcc_of_none]

theorem C6_amended_witness :
    processDomainToken [] [] [] "-bad-" = Except.ok ⟨none, none⟩ ∧
      add_domains_loop [] [] [] ([], []) ["-bad-", "x"] =
        add_domains_loop [] [] [] ([], []) ["x"] := by
  obtain ⟨st, h1, h2⟩ := C6_amended [] [] [] "-bad-" (by decide)
  obtain ⟨hst, hcont⟩ := h2 (by decide)
  subst hst
  exact ⟨h1, hcont ([], []) ["x"]⟩

/-- C7, counterexample.  The claim says all three ingest pipelines retry
the failed subset as a bulk update.  `add_domains` (line 242) discards
the failed set: even when the store reports `a.example.com` as failed,
its call trace contains no `update_documents` call at all. -/
theorem C7_counterexample :
    add_domains_calls ["*.example.com"] [] [] ["a.example.com"]
        ["a.example.com"] =
      Except.ok [StoreCall.addDocs "domain" ["a.example.com"]] ∧
      StoreCall.updateDocs "domain" ["a.example.com"] ∉
        [StoreCall.addDocs "domain" ["a.example.com"]] :=
  ⟨by rfl, by decide⟩

/-- C7, amended: only the URL pipeline retries — its trace is the bulk
add followed by a bulk update of exactly the failed keys — while the
domain and IP pipelines never issue an update call, silently discarding
their failed subsets. -/
theorem C7_amended :
    (∀ (override : Option String) (inscope outscope : List String)
        (urls failedResp : List String) (dict : List (String × UrlRec)),
      add_urls_core override inscope outscope urls = Except.ok dict →
      (failedResp.all fun f => (dict.lookup f).isSome) = true →
      add_urls_calls override inscope outscope urls failedResp =
        Except.ok [StoreCall.addDocs "url" (dict.map Prod.fst),
          StoreCall.updateDocs "url" failedResp]) ∧
      (∀ (inscope outscope blacklist toks failedResp : List String)
          (calls : List StoreCall),
        add_domains_calls inscope outscope blacklist toks failedResp =
          Except.ok calls →
        ∀ kind keys, StoreCall.updateDocs kind keys ∉ calls) ∧
      (∀ (blacklist toks failedResp : List String) (calls : List StoreCall),
        add_ips_calls blacklist toks failedResp = Except.ok calls →
        ∀ kind keys, StoreCall.updateDocs kind keys ∉ calls) := by
  refine ⟨?_, ?_, ?_⟩
  · intro override inscope outscope urls failedResp dict hcore hall
    simp only [add_urls_calls, hcore]
    rw [if_pos hall]
  · intro inscope outscope blacklist toks failedResp calls h kind keys hmem
    cases hcore : add_domains_core inscope outscope blacklist toks with
    | error e =>
      rw [add_domains_calls, hcore] at h
      cases h
    | ok da =>
      obtain ⟨dict, adds⟩ := da
      rw [add_domains_calls, hcore] at h
      injection h with h2
      rw [← h2] at hmem
      rcases List.mem_append.mp hmem with hmem2 | hmem2
      · by_cases hadds : 0 < adds.length
        · rw [if_pos hadds] at hmem2
          simp at hmem2
        · rw [if_neg hadds] at hmem2
          cases hmem2
      · simp at hmem2
  · intro blacklist toks failedResp calls h kind keys hmem
    cases hcore : add_ips_core blacklist toks with
    | error e =>
      rw [add_ips_calls, hcore] at h
      cases h
    | ok dict =>
      rw [add_ips_calls, hcore] at h
      injection h with h2
      rw [← h2] at hmem
      simp at hmem

theorem C7_amended_witness :
    add_urls_core none ["example.com"] [] ["http://example.com/page"] =
        Except.ok [("http://example.com/page",
          ⟨"example.com", 80, none, none, []⟩)] ∧
      add_urls_calls none ["example.com"] [] ["http://example.com/page"]
          ["http://example.com/page"] =
        Except.ok [StoreCall.addDocs "url" ["http://example.com/page"],
          StoreCall.updateDocs "url" ["http://example.com/page"]] := by
  refine ⟨by rfl, ?_⟩
  have h := C7_amended.1 none ["example.com"] [] ["http://example.com/page"]
    ["http://example.com/page"]
    [("http://example.com/page", ⟨"example.com", 80, none, none, []⟩)]
    (by rfl) (by rfl)
  simpa using h

/-- C8, counterexample.  The claim says a token with a field count other
than 3 still yields a record for an admissible URL.  A 2-field token
whose URL is admissible (inscope, grammar-valid, numeric status) matches
neither the 1-field nor the 3-field storage branch, so no record at all
is created. -/
theorem C8_counterexample :
    add_urls_core none ["example.com"] [] ["http://example.com/page 200"] =
        Except.ok [] ∧
      matches_scope "example.com" ["example.com"] = true ∧
      pyInt "200" = some 200 :=
  ⟨by rfl, by decide, by rfl⟩

set_option maxHeartbeats 1600000 in
/-- C8, amended: field 0 of the space-split token is the URL; with
exactly 3 fields the record carries `int` status and content length
(`http://example.com/page 200 9209` yields status 200, length 9209,
inferred port 80); with exactly 1 field an admissible URL yields a
record without them; with any other field count the token never creates
a record (it can only merge a query into an existing record of the
batch, leaving the key set unchanged). -/
theorem C8_amended :
    add_urls_core none ["example.com"] [] ["http://example.com/page 200 9209"] =
        Except.ok [("http://example.com/page",
          ⟨"example.com", 80, some 200, some 9209, []⟩)] ∧
      add_urls_core none ["example.com"] [] ["http://example.com/page"] =
        Except.ok [("http://example.com/page",
          ⟨"example.com", 80, none, none, []⟩)] ∧
      (∀ (override : Option String) (inscope outscope : List String)
          (dict : List (String × UrlRec)) (raw : String)
          (dict2 : List (String × UrlRec)),
        (pySplit raw ' ').length ≠ 1 → (pySplit raw ' ').length ≠ 3 →
        processUrlToken override inscope outscope dict raw = Except.ok dict2 →
        dict2.map Prod.fst = dict.map Prod.fst) := by
  refine ⟨by rfl, by rfl, ?_⟩
  intro override inscope outscope dict raw dict2 h1 h3 hok
  simp only [processUrlToken] at hok
  cases hres : urlResolve override inscope outscope (pySplit raw ' ') with
  | error e =>
    rw [hres] at hok
    cases hok
  | ok phase =>
    rw [hres] at hok
    cases phase with
    | skip =>
      injection hok with h4
      rw [← h4]
    | store hostname port query url4 =>
      exact urlMergeCreate_keys _ _ _ _ _ _ _ h1 h3 hok

theorem C8_amended_witness :
    processUrlToken none ["example.com"] [] [] "http://example.com/page 200" =
        Except.ok [] ∧
      ([] : List (String × UrlRec)).map Prod.fst =
        ([] : List (String × UrlRec)).map Prod.fst :=
  ⟨by rfl,
    C8_amended.2.2 none ["example.com"] [] [] "http://example.com/page 200" []
      (by decide) (by decide) (by rfl)⟩

/-- C9: the batch loop of `add_domains` equals mapping the per-token
function — which sees only the token and the snapshots fetched before
the batch — and folding the independent results; in particular a scope
expansion emitted by one token of a batch does not change the admission
of a later token: `x.foo.example.com` is rejected in the same batch in
which `*.foo.example.com` expands the scope, yet is admitted against the
post-batch scope. -/
theorem C9 :
    (∀ (inscope outscope blacklist : List String) (toks : List String),
        add_domains_core inscope outscope blacklist toks =
          (mapExcept (processDomainToken inscope outscope blacklist) toks).map
            (fun sts =>
              (sts.foldl stepDict [], sts.filterMap DomainStep.scopeAdd))) ∧
      add_domains_full ["foo.example.com"] [] []
          ["*.foo.example.com", "x.foo.example.com"] =
        Except.ok ([("foo.example.com", [])], ["*.foo.example.com"],
          ["foo.example.com", "*.foo.example.com"]) ∧
      processDomainToken ["foo.example.com", "*.foo.example.com"] [] []
          "x.foo.example.com" =
        Except.ok ⟨none, some ("x.foo.example.com", [])⟩ := by
  refine ⟨?_, by rfl, by rfl⟩
  intro inscope outscope blacklist toks
  have h := add_domains_loop_eq_mapM inscope outscope blacklist toks ([], [])
  rw [add_domains_core, h]
  cases mapExcept (processDomainToken inscope outscope blacklist) toks with
  | error e => rfl
  | ok sts => simp [Except.map]

/-- C10: `REGEX_IP` accepts any dotted quad of 1-3-digit groups without
range-checking the octets: `999.999.999.999` passes the grammar although
it is not a valid IPv4 address, and `add_ips` admits it whenever it is
not blacklisted. -/
theorem C10 :
    regexIpMatch "999.999.999.999" = true ∧
      isValidIPv4 "999.999.999.999" = false ∧
      (∀ blacklist : List String,
        blacklist.contains "999.999.999.999" = false →
        add_ips_core blacklist ["999.999.999.999"] =
          Except.ok [("999.999.999.999", [])]) := by
  refine ⟨by decide, by decide, ?_⟩
  intro bl hbl
  have hmem : "999.999.999.999" ∉ bl := by simpa using hbl
  have hnc : ("999.999.999.999" : String).data.contains ':' = false := by decide
  have hreg : regexIpMatch "999.999.999.999" = true := by decide
  simp [add_ips_core, add_ips_loop, processIpToken, hnc, hmem, hreg, Except.map,
    dictInsert]

theorem C10_witness :
    ([] : List String).contains "999.999.999.999" = false ∧
      add_ips_core [] ["999.999.999.999"] =
        Except.ok [("999.999.999.999", [])] :=
  ⟨by decide, C10.2.2 [] (by decide)⟩

end BBRF
